import Mathlib

/-!
# Verification of the eth2-reward-simulation epoch engine

Shallow embedding of the core of `eth2-reward-simulation` (Rust) and proofs
about it.  Sources embedded here:

* `src/types/config.rs`   : constants, `Config`, `Config::get_exp_value_inclusion_prob`
* `src/types/validator.rs`: `Validator`, `get_base_reward`,
  `update_previous_epoch_activity`, `update_effective_balance`
* `src/types/state.rs`    : `State`, `State::new`, `State::pick_epoch_proposers`,
  `StateTotals`
* `src/process_epoch/get_attestation_deltas.rs`: `get_attestation_deltas` and the
  `assign_*` helpers
* `src/process_epoch/apply_deltas.rs`: `apply_deltas`

Embedding conventions:

* `u64` values are modelled as `Nat`.  The one `u64` subtraction that can
  underflow (`apply_deltas`) and the two divisions whose divisor can be zero
  (`get_base_reward`, `assign_ffg_reward`) are modelled with `Option`: `none`
  is the Rust runtime failure (panic).
* `f32` values are modelled as exact rationals.  The only inexact `f32`
  operations the code performs on data of unbounded magnitude are `u64 -> f32`
  conversions and multiplications; both are modelled by exact rational
  arithmetic followed by `f32roundQ`, rounding to a 24-bit significand with
  round-to-nearest, ties-to-even (IEEE-754 binary32 with unbounded exponent:
  all values handled by the program are far inside the normal range, and all
  are nonnegative, so signed zeros, infinities, subnormals and overflow cannot
  arise; `f32roundQ` maps nonpositive inputs to `0`).
* `thread_rng` draws are modelled by explicit parameters: a stream
  `Nat -> Nat` for `pick_epoch_proposers` (`gen_range (0, k)` reads the next
  stream element modulo `k`) and two rational draws in `[0, 1)` for
  `update_previous_epoch_activity`.
* The unbounded `loop` in `pick_epoch_proposers` is modelled with explicit
  fuel; `PickResult.diverge` means the loop has not terminated within the
  given fuel.  Statements of the form `for all fuel, the result is diverge`
  express genuine non-termination.
* `Config::new` fills `exp_value_inclusion_prob` with the transcendental
  expression `p * ln p / (p - 1)`; that defining expression is modelled over
  the reals by `Config.get_exp_value_inclusion_prob` below, with its NaN
  results (`p ≤ 0` and `p = 1`) modelled as `none` and its finite results
  idealized by their exact real value (the rounding of `f32::ln` is
  implementation-defined).  The stored field is modelled as the exact
  rational value of the resulting `f32`.
-/

/-! ## A model of the f32 operations used by the code -/

/-- Fuelled binary logarithm: `log2fuel fuel n` is the index of the top bit of
`n`, provided `n ≤ fuel`. -/
def log2fuel : ℕ → ℕ → ℕ
  | 0, _ => 0
  | fuel + 1, n => if n < 2 then 0 else log2fuel fuel (n / 2) + 1

/-- Index of the top bit of `n` (for `n > 0`): `2 ^ natlog2 n ≤ n < 2 ^ (natlog2 n + 1)`. -/
def natlog2 (n : ℕ) : ℕ := log2fuel n n

/-- Round a rational to the nearest integer, ties to even. -/
def rne (x : ℚ) : ℤ :=
  let f := ⌊x⌋
  let r := x - f
  if r < 1 / 2 then f
  else if 1 / 2 < (r : ℚ) then f + 1
  else if f % 2 = 0 then f else f + 1

/-- Binary exponent of a positive rational: `2 ^ qlog2 q ≤ q < 2 ^ (qlog2 q + 1)`. -/
def qlog2 (q : ℚ) : ℤ :=
  let e0 : ℤ := (natlog2 q.num.natAbs : ℤ) - (natlog2 q.den : ℤ)
  if (2 : ℚ) ^ e0 ≤ q then e0 else e0 - 1

/-- Round a nonnegative rational to the nearest IEEE-754 binary32 value
(24-bit significand, round-to-nearest ties-to-even, unbounded exponent).
Nonpositive inputs are mapped to `0`; the program only produces nonnegative
floats. -/
def f32roundQ (q : ℚ) : ℚ :=
  if q ≤ 0 then 0
  else
    let e : ℤ := qlog2 q - 23
    ((rne (q * 2 ^ (-e)) : ℤ) : ℚ) * 2 ^ e

/-- The Rust cast `n as f32` for `n : u64`. -/
def f32ofNat (n : ℕ) : ℚ := f32roundQ (n : ℚ)

/-- IEEE-754 binary32 multiplication (unbounded exponent, nonnegative operands). -/
def fmul (a b : ℚ) : ℚ := f32roundQ (a * b)

/-- The Rust cast `x.floor() as u64` for a nonnegative float `x`. -/
def floorCast (x : ℚ) : ℕ := (⌊x⌋).toNat

/-- Net effect of the round-trip `u64 -> f32 -> u64` performed by the code:
`n` rounded to 24 significant bits. -/
def f32NatRound (n : ℕ) : ℕ := floorCast (f32roundQ (n : ℚ))

/-! ## Constants (src/types/config.rs) -/

def MAX_EFFECTIVE_BALANCE : ℕ := 32000000000

def BASE_REWARD_FACTOR : ℕ := 64

def BASE_REWARDS_PER_EPOCH : ℕ := 4

def PROPOSER_REWARD_QUOTIENT : ℕ := 8

def EFFECTIVE_BALANCE_INCREMENT : ℕ := 1000000000

/-! ## Data model (src/types/config.rs, validator.rs, state.rs) -/

structure Config where
  epochs : ℤ
  total_at_stake_initial : ℕ
  probability_online : ℚ
  probability_honest : ℚ
  exp_value_inclusion_prob : ℚ
deriving DecidableEq

structure Validator where
  balance : ℕ
  effective_balance : ℕ
  is_active : Bool
  is_slashed : Bool
  has_matched_source : Bool
  has_matched_target : Bool
  has_matched_head : Bool
  is_proposer : Bool
deriving DecidableEq

structure Deltas where
  head_ffg_reward : ℕ
  head_ffg_penalty : ℕ
  proposer_reward : ℕ
  attester_reward : ℕ
deriving DecidableEq

def Deltas.new : Deltas := ⟨0, 0, 0, 0⟩

structure State where
  config : Config
  validators : List Validator
deriving DecidableEq

structure StateTotals where
  staked_balance : ℕ
  active_balance : ℕ
  sqrt_active_balance : ℕ
  matching_balance : ℕ
  max_balance : ℕ
  min_balance : ℕ
  active_validators : ℕ
deriving DecidableEq

/-- Placeholder returned by `List.getD` for an out-of-range index.  It is
inactive, so the selection loop can never accept it; all indices the loop
actually produces are in range. -/
def defaultValidator : Validator := ⟨0, 0, false, false, false, false, false, false⟩

/-! ## Validator operations (src/types/validator.rs) -/

/-- `Validator::get_base_reward`.  The division by `sqrt_total_active_balance`
is unguarded in the source; `none` models the division-by-zero panic. -/
def Validator.get_base_reward (v : Validator) (sqrt_total_active_balance : ℕ) : Option ℕ :=
  if sqrt_total_active_balance = 0 then none
  else some (v.effective_balance * BASE_REWARD_FACTOR / sqrt_total_active_balance /
    BASE_REWARDS_PER_EPOCH)

/-- `Validator::update_previous_epoch_activity`.  The two `rng.gen()` draws in
`[0, 1)` are the explicit parameters `draw1`, `draw2`. -/
def Validator.update_previous_epoch_activity (v : Validator) (state : State)
    (draw1 draw2 : ℚ) (proposer_indices : List ℕ) (validator_index : ℕ) : Validator :=
  let has_been_online : Bool := decide (state.config.probability_online > draw1)
  let has_been_honest : Bool := decide (state.config.probability_honest > draw2)
  let has_matched_source : Bool := !v.is_slashed && has_been_online && has_been_honest
  { balance := v.balance
    effective_balance := v.effective_balance
    is_active := v.is_active
    is_slashed := v.is_slashed
    has_matched_source := has_matched_source
    has_matched_target := has_matched_source
    has_matched_head := has_matched_source
    is_proposer := decide (validator_index ∈ proposer_indices) }

/-- `Validator::update_effective_balance` (hysteresis). -/
def Validator.update_effective_balance (v : Validator) : Validator :=
  let half_increment := EFFECTIVE_BALANCE_INCREMENT / 2
  if v.balance < v.effective_balance ∨
      v.effective_balance + 3 * half_increment < v.balance then
    { v with effective_balance :=
        (min (v.balance - v.balance % EFFECTIVE_BALANCE_INCREMENT) MAX_EFFECTIVE_BALANCE) }
  else v

/-! ## State operations (src/types/state.rs) -/

/-- `State::get_total_active_validators`. -/
def State.get_total_active_validators (s : State) : ℕ :=
  (s.validators.map (fun v => if v.is_active then 1 else 0)).sum

/-- `State::new`.  The Rust constructor builds its `Config` internally via
`Config::new()` (whose derived float field is transcendental, see
`Config.get_exp_value_inclusion_prob`); the embedding takes the built `Config`
as a parameter and embeds the validator-creation loop: it pushes
`total_at_stake_initial / MAX_EFFECTIVE_BALANCE` identical fresh validators. -/
def State.new (config : Config) : State :=
  { config := config
    validators := (List.replicate (config.total_at_stake_initial / MAX_EFFECTIVE_BALANCE)
      ⟨MAX_EFFECTIVE_BALANCE, MAX_EFFECTIVE_BALANCE, true, false, false, false, false, false⟩) }

/-- Result of `State::pick_epoch_proposers`: `panic` is the explicit
`panic!("not enough active validators")`, `diverge` means the sampling loop
did not finish within the given fuel, `ok` is normal return. -/
inductive PickResult where
  | panic : PickResult
  | diverge : PickResult
  | ok : List ℕ → PickResult
deriving DecidableEq

/-- The sampling `loop` of `State::pick_epoch_proposers`, one fuel unit per
iteration.  `stream k` supplies the `k`-th random draw: candidate draws are
taken modulo `vs.length` (`rng.gen_range(0, n)`), byte draws modulo `255`
(`rng.gen_range(0, 255)`). -/
def pickLoop (vs : List Validator) (stream : ℕ → ℕ) :
    ℕ → ℕ → List ℕ → PickResult
  | 0, _, _ => PickResult.diverge
  | fuel + 1, pos, acc =>
    if acc.length = 32 then PickResult.ok acc
    else
      let candidate_index := stream pos % vs.length
      let v := vs.getD candidate_index defaultValidator
      if v.is_slashed || !v.is_active || decide (candidate_index ∈ acc) then
        pickLoop vs stream fuel (pos + 1) acc
      else
        let random_byte := stream (pos + 1) % 255
        if random_byte * 32000000000 ≤ v.effective_balance * 255 then
          pickLoop vs stream fuel (pos + 2) (acc ++ [candidate_index])
        else
          pickLoop vs stream fuel (pos + 2) acc

/-- `State::pick_epoch_proposers`.  Note the guard counts *active* validators
only (`get_total_active_validators`), not active-and-non-slashed ones. -/
def State.pick_epoch_proposers (s : State) (stream : ℕ → ℕ) (fuel : ℕ) : PickResult :=
  if s.get_total_active_validators < 32 then PickResult.panic
  else pickLoop s.validators stream fuel 0 []

/-- Number of indices of `vs` holding a validator that is both active and not
slashed (the validators the sampling loop can accept). -/
def eligible_validator_count (vs : List Validator) : ℕ :=
  ((Finset.range vs.length).filter
    (fun i => (vs.getD i defaultValidator).is_active = true ∧
      (vs.getD i defaultValidator).is_slashed = false)).card

/-- The invariant of claim C9. -/
def validator_invariant (v : Validator) : Prop :=
  v.effective_balance ≤ MAX_EFFECTIVE_BALANCE ∧
    EFFECTIVE_BALANCE_INCREMENT ∣ v.effective_balance

/-! ## Delta computation (src/process_epoch/get_attestation_deltas.rs) -/

def assign_ffg_reward (deltas : Deltas) (matching_balance active_balance : ℕ)
    (probability_online probability_honest : ℚ) (base_reward : ℕ) : Option Deltas :=
  let mb := floorCast (fmul (fmul (f32ofNat matching_balance) probability_online)
    probability_honest) / 1000
  let tab := active_balance / 1000
  if tab = 0 then none
  else some { deltas with head_ffg_reward := 3 * base_reward * mb / tab }

def assign_ffg_penalty (deltas : Deltas) (base_reward : ℕ) : Deltas :=
  { deltas with head_ffg_penalty := 3 * base_reward }

def assign_proposer_incentive (deltas : Deltas) (active_validators : ℕ)
    (probability_online probability_honest : ℚ) (base_reward : ℕ) : Deltas :=
  let proposer_reward_amount := base_reward / PROPOSER_REWARD_QUOTIENT
  let number_of_attesters := active_validators / 32
  let number_of_attestations :=
    floorCast (fmul (fmul (f32ofNat number_of_attesters) probability_online)
      probability_honest)
  { deltas with proposer_reward := proposer_reward_amount * number_of_attestations }

def assign_attester_incentive (deltas : Deltas) (magic_number : ℚ)
    (base_reward : ℕ) : Deltas :=
  let proposer_reward_amount := base_reward / PROPOSER_REWARD_QUOTIENT
  let maximum_attester_reward := base_reward - proposer_reward_amount
  { deltas with attester_reward :=
      (floorCast (fmul (f32ofNat maximum_attester_reward) magic_number)) }

/-- `get_attestation_deltas`.  The Rust function takes `state: &State` and
`state_totals: &StateTotals` and mutates `deltas` in place; the embedding
passes the consulted `state.config` directly and returns the new deltas,
`none` modelling the division-by-zero panic inside `assign_ffg_reward`. -/
def get_attestation_deltas (validator : Validator) (base_reward : ℕ)
    (config : Config) (state_totals : StateTotals) (deltas : Deltas) : Option Deltas :=
  if !validator.is_active then some deltas
  else if !validator.has_matched_source then some (assign_ffg_penalty deltas base_reward)
  else
    match assign_ffg_reward deltas state_totals.matching_balance
      state_totals.active_balance config.probability_online
      config.probability_honest base_reward with
    | none => none
    | some d1 =>
      let d2 := if validator.is_proposer then
          assign_proposer_incentive d1 state_totals.active_validators
            config.probability_online config.probability_honest base_reward
        else d1
      some (assign_attester_incentive d2 config.exp_value_inclusion_prob base_reward)

/-! ## Delta application (src/process_epoch/apply_deltas.rs) -/

/-- `apply_deltas`.  The Rust expression
`old.balance + reward - penalty + proposer + attester` evaluates left to
right in `u64`; `none` models the underflow panic when the penalty exceeds
`balance + head_ffg_reward`. -/
def apply_deltas (old_validator : Validator) (deltas : Deltas) : Option Validator :=
  if old_validator.balance + deltas.head_ffg_reward < deltas.head_ffg_penalty then none
  else some { old_validator with
    balance := old_validator.balance + deltas.head_ffg_reward - deltas.head_ffg_penalty +
      deltas.proposer_reward + deltas.attester_reward }

/-! ## Config derived field (src/types/config.rs) -/

/-- `Config::get_exp_value_inclusion_prob`, over the reals: the source computes
the `f32` expression `p * p.ln() / (p - 1.00)` with no case split whatsoever.
`none` models a NaN result, and the expression is NaN in exactly two regimes:
for `p ≤ 0` (`f32::ln` returns `-inf` at `0` — making the product
`0 * -inf` NaN — and NaN below `0`), and at `p = 1`, where numerator and
denominator are both exactly `0` even in `f32` (IEEE gives `ln 1 = 0` and
`1 - 1 = 0` exactly), so the quotient is `0 / 0` = NaN.  For the remaining
inputs the result is a finite float; since the rounding of `f32::ln` is
implementation-defined (a libm call), that float is idealized here by the
exact real value of the expression — the same reading under which the spec
states the formula. -/
noncomputable def Config.get_exp_value_inclusion_prob (p : ℝ) : Option ℝ :=
  if p ≤ 0 then none
  else if p - 1 = 0 then none
  else some (p * Real.log p / (p - 1))

/-! ## Helper lemmas: binary logarithms -/

theorem log2fuel_spec (fuel : ℕ) : ∀ n, 0 < n → n ≤ fuel →
    2 ^ log2fuel fuel n ≤ n ∧ n < 2 ^ (log2fuel fuel n + 1) := by
  induction fuel with
  | zero => intro n h1 h2; omega
  | succ fuel ih =>
    intro n h1 h2
    rw [log2fuel]
    by_cases h : n < 2
    · simp only [if_pos h]
      simp only [pow_zero, pow_one]
      omega
    · simp only [if_neg h]
      have hrec := ih (n / 2) (by omega) (by omega)
      have e1 : 2 ^ (log2fuel fuel (n / 2) + 1) = 2 * 2 ^ log2fuel fuel (n / 2) := by ring
      have e2 : 2 ^ (log2fuel fuel (n / 2) + 1 + 1) =
          2 * 2 ^ (log2fuel fuel (n / 2) + 1) := by ring
      omega

theorem natlog2_spec (n : ℕ) (h : 0 < n) :
    2 ^ natlog2 n ≤ n ∧ n < 2 ^ (natlog2 n + 1) :=
  log2fuel_spec n n h le_rfl

/-! ## Helper lemmas: round-to-nearest-even -/

theorem rne_intCast (m : ℤ) : rne (m : ℚ) = m := by
  simp only [rne, Int.floor_intCast, sub_self]
  norm_num

theorem rne_bounds (x : ℚ) : ⌊x⌋ ≤ rne x ∧ rne x ≤ ⌊x⌋ + 1 := by
  simp only [rne]
  split_ifs <;> omega

/-! ## Helper lemmas: binary exponent of a rational -/

theorem qlog2_spec (q : ℚ) (hq : 0 < q) :
    (2 : ℚ) ^ qlog2 q ≤ q ∧ q < (2 : ℚ) ^ (qlog2 q + 1) := by
  have hnum : 0 < q.num := Rat.num_pos.mpr hq
  have hden : 0 < q.den := q.pos
  have hna : 0 < q.num.natAbs := Int.natAbs_pos.mpr hnum.ne'
  obtain ⟨ha1, ha2⟩ := natlog2_spec _ hna
  obtain ⟨hb1, hb2⟩ := natlog2_spec _ hden
  have hcast : ((q.num.natAbs : ℕ) : ℚ) = (q.num : ℚ) := by
    have h : ((q.num.natAbs : ℕ) : ℤ) = q.num := Int.natAbs_of_nonneg hnum.le
    calc ((q.num.natAbs : ℕ) : ℚ) = (((q.num.natAbs : ℕ) : ℤ) : ℚ) :=
          (Int.cast_natCast _).symm
      _ = (q.num : ℚ) := by rw [h]
  have hdenQ : (0 : ℚ) < (q.den : ℚ) := by exact_mod_cast hden
  have hqeq : q = (q.num : ℚ) / (q.den : ℚ) := (Rat.num_div_den q).symm
  have hA1 : ((2 : ℚ) ^ (natlog2 q.num.natAbs : ℕ)) ≤ (q.num : ℚ) := by
    rw [← hcast]; exact_mod_cast ha1
  have hA2 : (q.num : ℚ) < (2 : ℚ) ^ (natlog2 q.num.natAbs + 1 : ℕ) := by
    rw [← hcast]; exact_mod_cast ha2
  have hB1 : ((2 : ℚ) ^ (natlog2 q.den : ℕ)) ≤ (q.den : ℚ) := by exact_mod_cast hb1
  have hB2 : ((q.den : ℚ)) < (2 : ℚ) ^ (natlog2 q.den + 1 : ℕ) := by exact_mod_cast hb2
  have hlow : (2 : ℚ) ^ ((natlog2 q.num.natAbs : ℤ) - natlog2 q.den - 1) * (q.den : ℚ) <
      (q.num : ℚ) := by
    have e : (2 : ℚ) ^ ((natlog2 q.num.natAbs : ℤ) - natlog2 q.den - 1) =
        2 ^ (natlog2 q.num.natAbs : ℕ) / 2 ^ (natlog2 q.den + 1 : ℕ) := by
      rw [show ((natlog2 q.num.natAbs : ℤ) - natlog2 q.den - 1) =
          ((natlog2 q.num.natAbs : ℕ) : ℤ) - ((natlog2 q.den + 1 : ℕ) : ℤ) by push_cast; ring]
      rw [zpow_sub₀ (by norm_num : (2 : ℚ) ≠ 0), zpow_natCast, zpow_natCast]
    rw [e, div_mul_eq_mul_div, div_lt_iff₀ (by positivity)]
    calc (2 : ℚ) ^ (natlog2 q.num.natAbs : ℕ) * (q.den : ℚ)
        < 2 ^ (natlog2 q.num.natAbs : ℕ) * 2 ^ (natlog2 q.den + 1 : ℕ) :=
          (mul_lt_mul_left (by positivity)).mpr hB2
      _ ≤ (q.num : ℚ) * 2 ^ (natlog2 q.den + 1 : ℕ) :=
          mul_le_mul_of_nonneg_right hA1 (by positivity)
  have hhigh : (q.num : ℚ) <
      (2 : ℚ) ^ ((natlog2 q.num.natAbs : ℤ) - natlog2 q.den + 1) * (q.den : ℚ) := by
    have e : (2 : ℚ) ^ ((natlog2 q.num.natAbs : ℤ) - natlog2 q.den + 1) =
        2 ^ (natlog2 q.num.natAbs + 1 : ℕ) / 2 ^ (natlog2 q.den : ℕ) := by
      rw [show ((natlog2 q.num.natAbs : ℤ) - natlog2 q.den + 1) =
          ((natlog2 q.num.natAbs + 1 : ℕ) : ℤ) - ((natlog2 q.den : ℕ) : ℤ) by push_cast; ring]
      rw [zpow_sub₀ (by norm_num : (2 : ℚ) ≠ 0), zpow_natCast, zpow_natCast]
    rw [e, div_mul_eq_mul_div, lt_div_iff₀ (by positivity)]
    calc (q.num : ℚ) * 2 ^ (natlog2 q.den : ℕ)
        < 2 ^ (natlog2 q.num.natAbs + 1 : ℕ) * 2 ^ (natlog2 q.den : ℕ) :=
          mul_lt_mul_of_pos_right hA2 (by positivity)
      _ ≤ 2 ^ (natlog2 q.num.natAbs + 1 : ℕ) * (q.den : ℚ) :=
          mul_le_mul_of_nonneg_left hB1 (by positivity)
  have low : (2 : ℚ) ^ ((natlog2 q.num.natAbs : ℤ) - natlog2 q.den - 1) < q := by
    have h := (lt_div_iff₀ hdenQ).mpr hlow
    rwa [Rat.num_div_den] at h
  have high : q < (2 : ℚ) ^ ((natlog2 q.num.natAbs : ℤ) - natlog2 q.den + 1) := by
    have h := (div_lt_iff₀ hdenQ).mpr hhigh
    rwa [Rat.num_div_den] at h
  simp only [qlog2]
  split_ifs with hcase
  · exact ⟨hcase, high⟩
  · refine ⟨low.le, ?_⟩
    rw [show ((natlog2 q.num.natAbs : ℤ) - (natlog2 q.den : ℤ) - 1 + 1) =
        (natlog2 q.num.natAbs : ℤ) - natlog2 q.den by ring]
    exact lt_of_not_le hcase

theorem qlog2_unique (q : ℚ) (k : ℤ) (hq : 0 < q)
    (h1 : (2 : ℚ) ^ k ≤ q) (h2 : q < (2 : ℚ) ^ (k + 1)) : qlog2 q = k := by
  obtain ⟨l1, l2⟩ := qlog2_spec q hq
  by_contra hne
  rcases lt_or_gt_of_ne hne with h | h
  · have : (2 : ℚ) ^ (qlog2 q + 1) ≤ (2 : ℚ) ^ k :=
      zpow_le_zpow_right₀ (by norm_num) (by omega)
    linarith
  · have : (2 : ℚ) ^ (k + 1) ≤ (2 : ℚ) ^ (qlog2 q) :=
      zpow_le_zpow_right₀ (by norm_num) (by omega)
    linarith

/-! ## Helper lemmas: f32 rounding -/

theorem f32roundQ_nonpos (q : ℚ) (h : q ≤ 0) : f32roundQ q = 0 := by
  simp [f32roundQ, h]

theorem f32roundQ_pos_eq (q : ℚ) (hq : 0 < q) :
    f32roundQ q = ((rne (q * 2 ^ (23 - qlog2 q)) : ℤ) : ℚ) * 2 ^ (qlog2 q - 23) := by
  simp only [f32roundQ, if_neg (not_le.mpr hq)]
  rw [show (-(qlog2 q - 23)) = 23 - qlog2 q by ring]

theorem scaled_bounds (q : ℚ) (hq : 0 < q) :
    (8388608 : ℚ) ≤ q * 2 ^ (23 - qlog2 q) ∧ q * 2 ^ (23 - qlog2 q) < 16777216 := by
  obtain ⟨l1, l2⟩ := qlog2_spec q hq
  have hp : (0 : ℚ) < 2 ^ (23 - qlog2 q) := zpow_pos (by norm_num) _
  constructor
  · have h := mul_le_mul_of_nonneg_right l1 hp.le
    calc (8388608 : ℚ) = 2 ^ (23 : ℤ) := by norm_num
      _ = 2 ^ qlog2 q * 2 ^ (23 - qlog2 q) := by
          rw [← zpow_add₀ (by norm_num : (2 : ℚ) ≠ 0)]
          rw [show (qlog2 q + (23 - qlog2 q)) = (23 : ℤ) by ring]
      _ ≤ q * 2 ^ (23 - qlog2 q) := h
  · have h := mul_lt_mul_of_pos_right l2 hp
    calc q * 2 ^ (23 - qlog2 q)
        < 2 ^ (qlog2 q + 1) * 2 ^ (23 - qlog2 q) := h
      _ = 2 ^ (24 : ℤ) := by
          rw [← zpow_add₀ (by norm_num : (2 : ℚ) ≠ 0)]
          rw [show (qlog2 q + 1 + (23 - qlog2 q)) = (24 : ℤ) by ring]
      _ = 16777216 := by norm_num

theorem rne_scaled_bounds (q : ℚ) (hq : 0 < q) :
    (8388608 : ℤ) ≤ rne (q * 2 ^ (23 - qlog2 q)) ∧
      rne (q * 2 ^ (23 - qlog2 q)) ≤ 16777216 := by
  obtain ⟨s1, s2⟩ := scaled_bounds q hq
  obtain ⟨b1, b2⟩ := rne_bounds (q * 2 ^ (23 - qlog2 q))
  have f1 : (8388608 : ℤ) ≤ ⌊q * 2 ^ (23 - qlog2 q)⌋ := by
    apply Int.le_floor.mpr
    exact_mod_cast s1
  have f2 : ⌊q * 2 ^ (23 - qlog2 q)⌋ < (16777216 : ℤ) := by
    apply Int.floor_lt.mpr
    exact_mod_cast s2
  omega

theorem f32roundQ_idem (q : ℚ) : f32roundQ (f32roundQ q) = f32roundQ q := by
  by_cases hq : q ≤ 0
  · rw [f32roundQ_nonpos q hq, f32roundQ_nonpos 0 le_rfl]
  push_neg at hq
  obtain ⟨m1, m2⟩ := rne_scaled_bounds q hq
  have hrw := f32roundQ_pos_eq q hq
  have hmQ : (8388608 : ℚ) ≤ ((rne (q * 2 ^ (23 - qlog2 q)) : ℤ) : ℚ) := by exact_mod_cast m1
  have hpow : (0 : ℚ) < 2 ^ (qlog2 q - 23) := zpow_pos (by norm_num) _
  have hrpos : 0 < f32roundQ q := by
    rw [hrw]
    exact mul_pos (lt_of_lt_of_le (by norm_num) hmQ) hpow
  rcases lt_or_eq_of_le m2 with hlt | heq
  · -- the rounded significand stays below 2^24: same binary exponent
    have hmQ2 : ((rne (q * 2 ^ (23 - qlog2 q)) : ℤ) : ℚ) < 16777216 := by exact_mod_cast hlt
    have hql : qlog2 (f32roundQ q) = qlog2 q := by
      apply qlog2_unique _ _ hrpos
      · rw [hrw]
        calc (2 : ℚ) ^ qlog2 q = 2 ^ (23 : ℤ) * 2 ^ (qlog2 q - 23) := by
              rw [← zpow_add₀ (by norm_num : (2 : ℚ) ≠ 0)]
              rw [show ((23 : ℤ) + (qlog2 q - 23)) = qlog2 q by ring]
          _ = (8388608 : ℚ) * 2 ^ (qlog2 q - 23) := by norm_num
          _ ≤ _ := mul_le_mul_of_nonneg_right hmQ hpow.le
      · rw [hrw]
        calc ((rne (q * 2 ^ (23 - qlog2 q)) : ℤ) : ℚ) * 2 ^ (qlog2 q - 23)
            < (16777216 : ℚ) * 2 ^ (qlog2 q - 23) :=
              mul_lt_mul_of_pos_right hmQ2 hpow
          _ = 2 ^ (24 : ℤ) * 2 ^ (qlog2 q - 23) := by norm_num
          _ = 2 ^ (qlog2 q + 1) := by
              rw [← zpow_add₀ (by norm_num : (2 : ℚ) ≠ 0)]
              rw [show ((24 : ℤ) + (qlog2 q - 23)) = qlog2 q + 1 by ring]
    rw [f32roundQ_pos_eq _ hrpos, hql]
    have hcancel : f32roundQ q * 2 ^ (23 - qlog2 q) =
        ((rne (q * 2 ^ (23 - qlog2 q)) : ℤ) : ℚ) := by
      rw [hrw, mul_assoc, ← zpow_add₀ (by norm_num : (2 : ℚ) ≠ 0)]
      rw [show (qlog2 q - 23 + (23 - qlog2 q)) = (0 : ℤ) by ring, zpow_zero, mul_one]
    rw [hcancel, rne_intCast, ← hrw]
  · -- the significand rounded up to exactly 2^24: exponent shifts by one
    have hr24 : f32roundQ q = 2 ^ (qlog2 q + 1) := by
      rw [hrw, heq]
      push_cast
      rw [show ((16777216 : ℚ)) = 2 ^ (24 : ℤ) by norm_num]
      rw [← zpow_add₀ (by norm_num : (2 : ℚ) ≠ 0)]
      rw [show ((24 : ℤ) + (qlog2 q - 23)) = qlog2 q + 1 by ring]
    have hql : qlog2 (f32roundQ q) = qlog2 q + 1 := by
      apply qlog2_unique _ _ hrpos
      · rw [hr24]
      · rw [hr24]
        exact zpow_lt_zpow_right₀ (by norm_num) (by omega)
    rw [f32roundQ_pos_eq _ hrpos, hql, hr24]
    have hs : (2 : ℚ) ^ (qlog2 q + 1) * 2 ^ (23 - (qlog2 q + 1)) = ((8388608 : ℤ) : ℚ) := by
      rw [← zpow_add₀ (by norm_num : (2 : ℚ) ≠ 0)]
      rw [show (qlog2 q + 1 + (23 - (qlog2 q + 1))) = (23 : ℤ) by ring]
      norm_num
    rw [hs, rne_intCast]
    rw [show ((8388608 : ℤ) : ℚ) = 2 ^ (23 : ℤ) by norm_num]
    rw [← zpow_add₀ (by norm_num : (2 : ℚ) ≠ 0)]
    rw [show ((23 : ℤ) + (qlog2 q + 1 - 23)) = qlog2 q + 1 by ring]

theorem f32roundQ_eq_self_of_int (q : ℚ) (hq : 0 < q) (z : ℤ)
    (hz : q * 2 ^ (23 - qlog2 q) = (z : ℚ)) : f32roundQ q = q := by
  rw [f32roundQ_pos_eq q hq, hz, rne_intCast, ← hz, mul_assoc,
    ← zpow_add₀ (by norm_num : (2 : ℚ) ≠ 0)]
  rw [show ((23 : ℤ) - qlog2 q + (qlog2 q - 23)) = (0 : ℤ) by ring, zpow_zero, mul_one]

theorem f32roundQ_natCast_small (n : ℕ) (h : n < 2 ^ 24) : f32roundQ (n : ℚ) = n := by
  rcases Nat.eq_zero_or_pos n with h0 | h0
  · subst h0
    simpa using f32roundQ_nonpos 0 le_rfl
  have hq : (0 : ℚ) < n := by exact_mod_cast h0
  have hL : qlog2 (n : ℚ) ≤ 23 := by
    by_contra hgt
    push_neg at hgt
    obtain ⟨l1, _⟩ := qlog2_spec _ hq
    have h24 : (2 : ℚ) ^ (24 : ℤ) ≤ (2 : ℚ) ^ qlog2 (n : ℚ) :=
      zpow_le_zpow_right₀ (by norm_num) (by omega)
    have hn24 : ((n : ℚ)) < (2 : ℚ) ^ (24 : ℤ) := by
      rw [show ((24 : ℤ)) = ((24 : ℕ) : ℤ) from rfl, zpow_natCast]
      exact_mod_cast h
    linarith
  apply f32roundQ_eq_self_of_int _ hq ((n : ℤ) * 2 ^ (23 - qlog2 (n : ℚ)).toNat)
  have hnn : (0 : ℤ) ≤ 23 - qlog2 (n : ℚ) := by omega
  rw [show ((23 : ℤ) - qlog2 (n : ℚ)) = (((23 - qlog2 (n : ℚ)).toNat : ℕ) : ℤ) by
    rw [Int.toNat_of_nonneg hnn], zpow_natCast]
  push_cast [Int.toNat_natCast]
  ring

theorem f32NatRound_small (n : ℕ) (h : n < 2 ^ 24) : f32NatRound n = n := by
  rw [f32NatRound, f32roundQ_natCast_small n h, floorCast, Int.floor_natCast, Int.toNat_natCast]

theorem fmul_one_right (a : ℚ) : fmul a 1 = f32roundQ a := by
  rw [fmul, mul_one]

theorem fmul_zero_right (a : ℚ) : fmul a 0 = 0 := by
  rw [fmul, mul_zero, f32roundQ_nonpos _ le_rfl]

/-- With both probabilities equal to `1.0`, the float chain
`matching_balance as f32 * p_online * p_honest -> floor -> u64` collapses to
the `u64 -> f32 -> u64` round-trip. -/
theorem float_chain_one (m : ℕ) :
    floorCast (fmul (fmul (f32ofNat m) 1) 1) = f32NatRound m := by
  rw [fmul_one_right, fmul_one_right, f32ofNat, f32roundQ_idem, f32roundQ_idem, f32NatRound]

/-! ## Concrete f32 computations -/

theorem qlog2_c1 : qlog2 (17179870208 : ℚ) = 34 := by
  apply qlog2_unique _ _ (by norm_num)
  · rw [show ((34 : ℤ)) = ((34 : ℕ) : ℤ) from rfl, zpow_natCast]
    norm_num
  · rw [show ((34 : ℤ) + 1) = ((35 : ℕ) : ℤ) from rfl, zpow_natCast]
    norm_num

theorem floor_c1 : ⌊(16777217 : ℚ) / 2⌋ = 8388608 := by
  rw [Int.floor_eq_iff]
  constructor <;> norm_num

theorem rne_c1 : rne ((16777217 : ℚ) / 2) = 8388608 := by
  simp only [rne, floor_c1]
  norm_num

theorem f32NatRound_c1 : f32NatRound 17179870208 = 17179869184 := by
  rw [f32NatRound]
  rw [show (((17179870208 : ℕ)) : ℚ) = (17179870208 : ℚ) by norm_num]
  rw [f32roundQ_pos_eq _ (by norm_num), qlog2_c1]
  rw [show ((17179870208 : ℚ) * 2 ^ ((23 : ℤ) - 34)) = (16777217 : ℚ) / 2 by
    rw [show ((23 : ℤ) - 34) = -((11 : ℕ) : ℤ) from rfl, zpow_neg, zpow_natCast]
    norm_num]
  rw [rne_c1]
  rw [show (((8388608 : ℤ) : ℚ) * 2 ^ ((34 : ℤ) - 23)) = ((17179869184 : ℤ) : ℚ) by
    rw [show ((34 : ℤ) - 23) = ((11 : ℕ) : ℤ) from rfl, zpow_natCast]
    norm_num]
  rw [floorCast, Int.floor_intCast]
  rfl

theorem get_attestation_deltas_inactive (v : Validator) (br : ℕ) (cfg : Config)
    (st : StateTotals) (d : Deltas) (h : v.is_active = false) :
    get_attestation_deltas v br cfg st d = some d := by
  simp [get_attestation_deltas, h]

theorem get_attestation_deltas_unmatched (v : Validator) (br : ℕ) (cfg : Config)
    (st : StateTotals) (hact : v.is_active = true) (hms : v.has_matched_source = false) :
    get_attestation_deltas v br cfg st Deltas.new = some ⟨0, 3 * br, 0, 0⟩ := by
  simp [get_attestation_deltas, hact, hms, assign_ffg_penalty, Deltas.new]

theorem assign_ffg_reward_one (st : StateTotals) (br : ℕ)
    (htab : ¬(st.active_balance / 1000 = 0)) :
    assign_ffg_reward Deltas.new st.matching_balance st.active_balance 1 1 br =
      some ⟨3 * br * (f32NatRound st.matching_balance / 1000) / (st.active_balance / 1000),
        0, 0, 0⟩ := by
  simp only [assign_ffg_reward, float_chain_one, if_neg htab]
  rfl

theorem get_attestation_deltas_matched (v : Validator) (br : ℕ) (cfg : Config)
    (st : StateTotals) (hact : v.is_active = true) (hms : v.has_matched_source = true)
    (hprop : v.is_proposer = false) (hpo : cfg.probability_online = 1)
    (hph : cfg.probability_honest = 1) (htab : 1000 ≤ st.active_balance) :
    get_attestation_deltas v br cfg st Deltas.new =
      some ⟨3 * br * (f32NatRound st.matching_balance / 1000) / (st.active_balance / 1000),
        0, 0,
        (floorCast (fmul (f32ofNat (br - br / PROPOSER_REWARD_QUOTIENT))
          cfg.exp_value_inclusion_prob))⟩ := by
  have htabne : ¬(st.active_balance / 1000 = 0) := by
    have h1 : 1 ≤ st.active_balance / 1000 := (Nat.one_le_div_iff (by norm_num)).mpr htab
    omega
  simp only [get_attestation_deltas, hact, hms, hprop, hpo, hph, Bool.not_true,
    Bool.false_eq_true, if_false, assign_ffg_reward_one st br htabne]
  simp [assign_attester_incentive]

/-! ## Helper lemmas: the proposer sampling loop -/

theorem nodup_eligible_length_le (vs : List Validator) (acc : List ℕ) (hnd : acc.Nodup)
    (hmem : ∀ i ∈ acc, i < vs.length ∧ (vs.getD i defaultValidator).is_active = true ∧
      (vs.getD i defaultValidator).is_slashed = false) :
    acc.length ≤ eligible_validator_count vs := by
  have hsub : acc.toFinset ⊆ (Finset.range vs.length).filter
      (fun i => (vs.getD i defaultValidator).is_active = true ∧
        (vs.getD i defaultValidator).is_slashed = false) := by
    intro i hi
    rw [List.mem_toFinset] at hi
    obtain ⟨h1, h2, h3⟩ := hmem i hi
    rw [Finset.mem_filter, Finset.mem_range]
    exact ⟨h1, h2, h3⟩
  calc acc.length = acc.toFinset.card := (List.toFinset_card_of_nodup hnd).symm
    _ ≤ _ := Finset.card_le_card hsub

theorem pickLoop_invariant_diverge (vs : List Validator) (stream : ℕ → ℕ)
    (hcnt : eligible_validator_count vs < 32) :
    ∀ (fuel pos : ℕ) (acc : List ℕ), acc.Nodup →
      (∀ i ∈ acc, i < vs.length ∧ (vs.getD i defaultValidator).is_active = true ∧
        (vs.getD i defaultValidator).is_slashed = false) →
      pickLoop vs stream fuel pos acc = PickResult.diverge := by
  intro fuel
  induction fuel with
  | zero => intro pos acc _ _; rfl
  | succ fuel ih =>
    intro pos acc hnd hmem
    have hlen : acc.length ≤ eligible_validator_count vs :=
      nodup_eligible_length_le vs acc hnd hmem
    have hne : ¬(acc.length = 32) := by omega
    rw [pickLoop, if_neg hne]
    by_cases hb : ((vs.getD (stream pos % vs.length) defaultValidator).is_slashed ||
        !(vs.getD (stream pos % vs.length) defaultValidator).is_active ||
        decide (stream pos % vs.length ∈ acc)) = true
    · rw [if_pos hb]
      exact ih (pos + 1) acc hnd hmem
    · rw [if_neg hb]
      simp only [Bool.or_eq_true, Bool.not_eq_true', decide_eq_true_eq, not_or] at hb
      obtain ⟨⟨hslash, hactive⟩, hmemci⟩ := hb
      have hactive' : (vs.getD (stream pos % vs.length) defaultValidator).is_active = true := by
        simpa using hactive
      have hlenpos : vs.length ≠ 0 := by
        intro h0
        rw [List.length_eq_zero] at h0
        subst h0
        simp [defaultValidator] at hactive'
      have hci : stream pos % vs.length < vs.length :=
        Nat.mod_lt _ (Nat.pos_of_ne_zero hlenpos)
      by_cases hbyte : stream (pos + 1) % 255 * 32000000000 ≤
          (vs.getD (stream pos % vs.length) defaultValidator).effective_balance * 255
      · rw [if_pos hbyte]
        apply ih (pos + 2)
        · simp [List.nodup_append, hnd, hmemci]
        · intro i hi
          rcases List.mem_append.mp hi with h | h
          · exact hmem i h
          · rw [List.mem_singleton] at h
            subst h
            exact ⟨hci, hactive', by simpa using hslash⟩
      · rw [if_neg hbyte]
        exact ih (pos + 2) acc hnd hmem

theorem pickLoop_ok_spec (vs : List Validator) (stream : ℕ → ℕ) :
    ∀ (fuel pos : ℕ) (acc : List ℕ) (l : List ℕ), acc.Nodup →
      (∀ i ∈ acc, i < vs.length ∧ (vs.getD i defaultValidator).is_active = true ∧
        (vs.getD i defaultValidator).is_slashed = false) →
      pickLoop vs stream fuel pos acc = PickResult.ok l →
      l.length = 32 ∧ l.Nodup ∧
        (∀ i ∈ l, i < vs.length ∧ (vs.getD i defaultValidator).is_active = true ∧
          (vs.getD i defaultValidator).is_slashed = false) := by
  intro fuel
  induction fuel with
  | zero =>
    intro pos acc l _ _ h
    simp [pickLoop] at h
  | succ fuel ih =>
    intro pos acc l hnd hmem heq
    rw [pickLoop] at heq
    by_cases hl : acc.length = 32
    · rw [if_pos hl] at heq
      simp only [PickResult.ok.injEq] at heq
      subst heq
      exact ⟨hl, hnd, hmem⟩
    · rw [if_neg hl] at heq
      by_cases hb : ((vs.getD (stream pos % vs.length) defaultValidator).is_slashed ||
          !(vs.getD (stream pos % vs.length) defaultValidator).is_active ||
          decide (stream pos % vs.length ∈ acc)) = true
      · rw [if_pos hb] at heq
        exact ih (pos + 1) acc l hnd hmem heq
      · rw [if_neg hb] at heq
        simp only [Bool.or_eq_true, Bool.not_eq_true', decide_eq_true_eq, not_or] at hb
        obtain ⟨⟨hslash, hactive⟩, hmemci⟩ := hb
        have hactive' : (vs.getD (stream pos % vs.length) defaultValidator).is_active
            = true := by simpa using hactive
        have hlenpos : vs.length ≠ 0 := by
          intro h0
          rw [List.length_eq_zero] at h0
          subst h0
          simp [defaultValidator] at hactive'
        have hci : stream pos % vs.length < vs.length :=
          Nat.mod_lt _ (Nat.pos_of_ne_zero hlenpos)
        by_cases hbyte : stream (pos + 1) % 255 * 32000000000 ≤
            (vs.getD (stream pos % vs.length) defaultValidator).effective_balance * 255
        · rw [if_pos hbyte] at heq
          apply ih (pos + 2) _ l _ _ heq
          · simp [List.nodup_append, hnd, hmemci]
          · intro i hi
            rcases List.mem_append.mp hi with h | h
            · exact hmem i h
            · rw [List.mem_singleton] at h
              subst h
              exact ⟨hci, hactive', by simpa using hslash⟩
        · rw [if_neg hbyte] at heq
          exact ih (pos + 2) acc l hnd hmem heq

/-! ## Helper lemma: the limit of the inclusion-probability formula -/

theorem exp_value_formula_tendsto_one :
    Filter.Tendsto (fun p : ℝ => p * Real.log p / (p - 1))
      (nhdsWithin 1 {(1 : ℝ)}ᶜ) (nhds 1) := by
  have hd : HasDerivAt Real.log 1 1 := by
    simpa using Real.hasDerivAt_log (by norm_num : (1 : ℝ) ≠ 0)
  have hs := hasDerivAt_iff_tendsto_slope.mp hd
  have hid : Filter.Tendsto (fun p : ℝ => p) (nhdsWithin 1 {(1 : ℝ)}ᶜ) (nhds 1) :=
    (continuous_id.tendsto 1).mono_left nhdsWithin_le_nhds
  have hmul := hid.mul hs
  have hcong : ∀ p : ℝ, p * slope Real.log 1 p = p * Real.log p / (p - 1) := by
    intro p
    rw [slope_def_field, Real.log_one, sub_zero, mul_div_assoc]
  simpa [hcong] using hmul

/-! ## Claim theorems -/

/-- C1 (counterexample): a set of 32 validators that are all active but all
slashed has no eligible validator at all, yet `pick_epoch_proposers` does not
panic on it — the guard only counts active validators, so the sampling loop
runs without terminating (here shown for fuel 64). -/
theorem pick_epoch_proposers_no_panic_on_slashed_set :
    eligible_validator_count (List.replicate 32
      (⟨32000000000, 32000000000, true, true, false, false, false, false⟩ : Validator)) = 0 ∧
    (State.mk ⟨10, 1024000000000, 1, 1, 0⟩ (List.replicate 32
      ⟨32000000000, 32000000000, true, true, false, false, false, false⟩)).pick_epoch_proposers
      (fun _ => 0) 64 = PickResult.diverge := by
  constructor
  · decide
  · decide

/-- C1 (amended): `pick_epoch_proposers` panics exactly when fewer than 32
*active* validators exist (the guard ignores the slashed flag); whenever at
least 32 validators are active but fewer than 32 are both active and
non-slashed, it neither panics nor returns — for every fuel bound the
sampling loop is still running. -/
theorem pick_epoch_proposers_panic_guard (s : State) (stream : ℕ → ℕ) (fuel : ℕ) :
    (s.get_total_active_validators < 32 →
      s.pick_epoch_proposers stream fuel = PickResult.panic) ∧
    (32 ≤ s.get_total_active_validators → eligible_validator_count s.validators < 32 →
      s.pick_epoch_proposers stream fuel = PickResult.diverge) := by
  constructor
  · intro h
    rw [State.pick_epoch_proposers, if_pos h]
  · intro h32 hcnt
    rw [State.pick_epoch_proposers, if_neg (not_lt.mpr h32)]
    exact pickLoop_invariant_diverge s.validators stream hcnt fuel 0 [] List.nodup_nil
      (by simp)

/-- C1 (witness): the panic branch on an empty validator set, and the
divergence branch on 32 active-but-slashed validators. -/
theorem pick_epoch_proposers_panic_guard_witness :
    (State.mk ⟨10, 1024000000000, 1, 1, 0⟩ []).pick_epoch_proposers (fun _ => 0) 5 =
      PickResult.panic ∧
    (State.mk ⟨10, 1024000000000, 1, 1, 0⟩ (List.replicate 32
      ⟨32000000000, 32000000000, true, true, false, false, false, false⟩)).pick_epoch_proposers
      (fun _ => 0) 7 = PickResult.diverge :=
  ⟨(pick_epoch_proposers_panic_guard _ _ _).1 (by decide),
    (pick_epoch_proposers_panic_guard _ _ _).2 (by decide) (by decide)⟩

/-- C2 (counterexample): `get_attestation_deltas` never consults `is_slashed`:
an active validator carrying `is_slashed = true` together with
`has_matched_source = true` is sent through the *reward* branch — it receives
`head_ffg_reward = 24` and a zero penalty instead of the claimed
`head_ffg_penalty = 3 * base_reward = 24`. -/
theorem get_attestation_deltas_slashed_matched_counterexample :
    get_attestation_deltas ⟨0, 0, true, true, true, true, true, false⟩ 8 ⟨0, 0, 1, 1, 0⟩
      ⟨0, 1000, 0, 1000, 0, 0, 0⟩ Deltas.new = some ⟨24, 0, 0, 0⟩ ∧
    Deltas.head_ffg_penalty ⟨24, 0, 0, 0⟩ ≠ 3 * 8 := by
  constructor
  · rw [get_attestation_deltas_matched _ _ _ _ rfl rfl rfl rfl rfl (by norm_num)]
    norm_num [f32NatRound_small 1000 (by norm_num), fmul_zero_right, floorCast]
  · decide

/-- C2 (amended): the branch condition of `get_attestation_deltas` is solely
`has_matched_source = false`: every *active* validator with
`has_matched_source = false` gets `head_ffg_penalty = 3 * base_reward` and
all other deltas `0`.  Slashed validators are covered only through
`update_previous_epoch_activity`, which always outputs
`has_matched_source = false` for them. -/
theorem get_attestation_deltas_penalty_amended :
    (∀ (v : Validator) (br : ℕ) (cfg : Config) (st : StateTotals),
      v.is_active = true → v.has_matched_source = false →
      get_attestation_deltas v br cfg st Deltas.new = some ⟨0, 3 * br, 0, 0⟩) ∧
    (∀ (v : Validator) (s : State) (d1 d2 : ℚ) (pis : List ℕ) (idx : ℕ),
      v.is_slashed = true →
      (v.update_previous_epoch_activity s d1 d2 pis idx).has_matched_source = false) := by
  constructor
  · intro v br cfg st hact hms
    exact get_attestation_deltas_unmatched v br cfg st hact hms
  · intro v s d1 d2 pis idx h
    simp [Validator.update_previous_epoch_activity, h]

/-- C2 (witness): the penalty branch at a concrete active non-matching
validator, and the activity update of a concrete slashed validator. -/
theorem get_attestation_deltas_penalty_amended_witness :
    get_attestation_deltas ⟨0, 0, true, false, false, false, false, false⟩ 5 ⟨0, 0, 1, 1, 0⟩
      ⟨0, 0, 0, 0, 0, 0, 0⟩ Deltas.new = some ⟨0, 3 * 5, 0, 0⟩ ∧
    ((⟨0, 0, true, true, false, false, false, false⟩ : Validator).update_previous_epoch_activity
      (State.mk ⟨0, 0, 1, 1, 0⟩ []) 0 0 [] 0).has_matched_source = false :=
  ⟨get_attestation_deltas_penalty_amended.1 _ _ _ _ rfl rfl,
    get_attestation_deltas_penalty_amended.2 _ _ _ _ _ _ rfl⟩

/-- C3 (confirmed): `update_effective_balance` recomputes the effective
balance to `min (balance - balance % EFFECTIVE_BALANCE_INCREMENT)
MAX_EFFECTIVE_BALANCE` exactly when `balance < effective_balance` or
`effective_balance + 3 * (EFFECTIVE_BALANCE_INCREMENT / 2) < balance`, and
returns the validator unchanged otherwise (dead band). -/
theorem update_effective_balance_spec (v : Validator) :
    ((v.balance < v.effective_balance ∨
        v.effective_balance + 3 * (EFFECTIVE_BALANCE_INCREMENT / 2) < v.balance) →
      v.update_effective_balance = { v with effective_balance :=
        (min (v.balance - v.balance % EFFECTIVE_BALANCE_INCREMENT) MAX_EFFECTIVE_BALANCE) }) ∧
    (¬(v.balance < v.effective_balance ∨
        v.effective_balance + 3 * (EFFECTIVE_BALANCE_INCREMENT / 2) < v.balance) →
      v.update_effective_balance = v) := by
  constructor
  · intro h
    simp only [Validator.update_effective_balance]
    rw [if_pos h]
  · intro h
    simp only [Validator.update_effective_balance]
    rw [if_neg h]

/-- C3 (witness): the hysteresis at the spec's own test points — balance 23.0
ETH with effective balance 24 ETH snaps down to 23 ETH, and balance 25.5 ETH
with effective balance 24 ETH sits inside the dead band. -/
theorem update_effective_balance_spec_witness :
    (⟨23000000000, 24000000000, true, false, false, false, false, false⟩ :
        Validator).update_effective_balance =
      { (⟨23000000000, 24000000000, true, false, false, false, false, false⟩ : Validator) with
        effective_balance := (min (23000000000 - 23000000000 % EFFECTIVE_BALANCE_INCREMENT)
          MAX_EFFECTIVE_BALANCE) } ∧
    (⟨25500000000, 24000000000, true, false, false, false, false, false⟩ :
        Validator).update_effective_balance =
      ⟨25500000000, 24000000000, true, false, false, false, false, false⟩ :=
  ⟨(update_effective_balance_spec _).1 (by decide),
    (update_effective_balance_spec _).2 (by decide)⟩

/-- C4 (counterexample): `Config::get_exp_value_inclusion_prob` has no special
case at `p = 1`: there the source expression `p * p.ln() / (p - 1.00)`
divides `0` by `0` (NaN, modelled as `none`), so the derived value is not the
claimed `1.0`. -/
theorem get_exp_value_inclusion_prob_at_one :
    Config.get_exp_value_inclusion_prob 1 = none := by
  norm_num [Config.get_exp_value_inclusion_prob]

/-- C4 (amended): the derived field is computed unconditionally as
`p * ln p / (p - 1)`; for `0 < p`, `p ≠ 1` that value is returned, while at
both endpoints of the claimed range the computation is NaN rather than a
number: at `p = 0` the numerator is `0 * ln 0 = 0 * (-inf)` (NaN, not the
formula's value), and at `p = 1` the construction produces `0 / 0` (NaN)
instead of special-casing — even though the expression does tend to `1` as
`p` tends to `1`, which is the value the claim expected. -/
theorem get_exp_value_inclusion_prob_amended :
    (∀ p : ℝ, 0 < p → p ≠ 1 →
      Config.get_exp_value_inclusion_prob p = some (p * Real.log p / (p - 1))) ∧
    Config.get_exp_value_inclusion_prob 0 = none ∧
    Config.get_exp_value_inclusion_prob 1 = none ∧
    Filter.Tendsto (fun p : ℝ => p * Real.log p / (p - 1))
      (nhdsWithin 1 {(1 : ℝ)}ᶜ) (nhds 1) := by
  refine ⟨?_, ?_, ?_, exp_value_formula_tendsto_one⟩
  · intro p hpos hp
    rw [Config.get_exp_value_inclusion_prob, if_neg (not_le.mpr hpos),
      if_neg (sub_ne_zero.mpr hp)]
  · norm_num [Config.get_exp_value_inclusion_prob]
  · norm_num [Config.get_exp_value_inclusion_prob]

/-- C4 (witness): the generic branch evaluated at `p = 2`. -/
theorem get_exp_value_inclusion_prob_amended_witness :
    Config.get_exp_value_inclusion_prob 2 = some (2 * Real.log 2 / (2 - 1)) :=
  get_exp_value_inclusion_prob_amended.1 2 (by norm_num) (by norm_num)

/-- C5 (counterexample): the code first converts `matching_balance` to `f32`.
At `matching_balance = 2^34 + 1024 = 17179870208` that conversion rounds
(ties-to-even) down to `17179869184`, and with `base_reward = 1` and
`active_balance = 3000` the computed `head_ffg_reward` is `17179869`, not the
claimed `3 * 1 * (17179870208 / 1000) / (3000 / 1000) = 17179870`. -/
theorem assign_ffg_reward_f32_counterexample :
    get_attestation_deltas ⟨0, 0, true, false, true, true, true, false⟩ 1 ⟨0, 0, 1, 1, 0⟩
      ⟨0, 3000, 0, 17179870208, 0, 0, 0⟩ Deltas.new = some ⟨17179869, 0, 0, 0⟩ ∧
    (17179869 : ℕ) ≠ 3 * 1 * (17179870208 / 1000) / (3000 / 1000) := by
  constructor
  · rw [get_attestation_deltas_matched _ _ _ _ rfl rfl rfl rfl rfl (by norm_num)]
    norm_num [f32NatRound_c1, fmul_zero_right, floorCast]
  · decide

/-- C5 (amended): for an active, source-matching, non-proposing validator
with both probabilities `1.0`, `get_attestation_deltas` (on a totals record
with `active_balance ≥ 1000`, below which the code divides by zero) sets
`head_ffg_reward = 3 * base_reward * (f32(matching_balance) / 1000) /
(active_balance / 1000)` — where `f32(·)` is the u64-to-f32 rounding
(24-bit significand, round-to-nearest ties-to-even) performed by the code
before the fixed scale-down by 1000 — and leaves `proposer_reward = 0`. -/
theorem assign_ffg_reward_amended (v : Validator) (br : ℕ) (cfg : Config)
    (st : StateTotals) (hact : v.is_active = true) (hms : v.has_matched_source = true)
    (hprop : v.is_proposer = false) (hpo : cfg.probability_online = 1)
    (hph : cfg.probability_honest = 1) (htab : 1000 ≤ st.active_balance) :
    ∃ d : Deltas, get_attestation_deltas v br cfg st Deltas.new = some d ∧
      d.head_ffg_reward = 3 * br * (f32NatRound st.matching_balance / 1000) /
        (st.active_balance / 1000) ∧
      d.proposer_reward = 0 :=
  ⟨_, get_attestation_deltas_matched v br cfg st hact hms hprop hpo hph htab, rfl, rfl⟩

/-- C5 (witness): the amended formula at a concrete small instance
(`matching_balance = active_balance = 2000`, `base_reward = 5`). -/
theorem assign_ffg_reward_amended_witness :
    ∃ d : Deltas, get_attestation_deltas ⟨0, 0, true, false, true, true, true, false⟩ 5
      ⟨0, 0, 1, 1, 0⟩ ⟨0, 2000, 0, 2000, 0, 0, 0⟩ Deltas.new = some d ∧
      d.head_ffg_reward = 3 * 5 * (f32NatRound 2000 / 1000) / (2000 / 1000) ∧
      d.proposer_reward = 0 :=
  assign_ffg_reward_amended _ _ _ _ rfl rfl rfl rfl rfl (by norm_num)

/-- C6 (confirmed): `get_base_reward` computes `effective_balance *
BASE_REWARD_FACTOR / sqrt_active_balance / BASE_REWARDS_PER_EPOCH` with
truncating integer division whenever the divisor is nonzero, and at
`effective_balance = 32_000_000_000`, `sqrt_active_balance = 22_360_679` it
returns exactly `22_897`. -/
theorem get_base_reward_formula :
    (∀ (v : Validator) (s : ℕ), 0 < s →
      v.get_base_reward s = some (v.effective_balance * BASE_REWARD_FACTOR / s /
        BASE_REWARDS_PER_EPOCH)) ∧
    Validator.get_base_reward ⟨32000000000, 32000000000, true, false, false, false,
      false, false⟩ 22360679 = some 22897 := by
  constructor
  · intro v s hs
    rw [Validator.get_base_reward, if_neg (by omega)]
  · decide

/-- C6 (witness): the formula branch evaluated at a concrete validator and
divisor. -/
theorem get_base_reward_formula_witness :
    Validator.get_base_reward ⟨1000, 2000, true, false, false, false, false, false⟩ 7 =
      some (2000 * BASE_REWARD_FACTOR / 7 / BASE_REWARDS_PER_EPOCH) :=
  get_base_reward_formula.1 _ 7 (by norm_num)

/-- C7 (confirmed): an inactive validator keeps all four deltas at `0`
(`get_attestation_deltas` returns before assigning anything), and applying
the zero deltas returns the validator unchanged — in particular with the
same balance. -/
theorem inactive_validator_no_deltas (v : Validator) (br : ℕ) (cfg : Config)
    (st : StateTotals) (h : v.is_active = false) :
    get_attestation_deltas v br cfg st Deltas.new = some Deltas.new ∧
    apply_deltas v Deltas.new = some v := by
  refine ⟨get_attestation_deltas_inactive v br cfg st Deltas.new h, ?_⟩
  simp [apply_deltas, Deltas.new]

/-- C7 (witness): a concrete inactive validator. -/
theorem inactive_validator_no_deltas_witness :
    get_attestation_deltas ⟨17, 9, false, true, true, false, true, true⟩ 3 ⟨0, 0, 1, 1, 0⟩
      ⟨0, 0, 0, 0, 0, 0, 0⟩ Deltas.new = some Deltas.new ∧
    apply_deltas ⟨17, 9, false, true, true, false, true, true⟩ Deltas.new =
      some ⟨17, 9, false, true, true, false, true, true⟩ :=
  inactive_validator_no_deltas _ 3 _ _ rfl

/-- C8 (confirmed): whenever `pick_epoch_proposers` returns a list, that list
has exactly 32 pairwise-distinct indices, each in range and referring to a
validator that is active and not slashed. -/
theorem pick_epoch_proposers_ok_spec (s : State) (stream : ℕ → ℕ) (fuel : ℕ)
    (l : List ℕ) (h : s.pick_epoch_proposers stream fuel = PickResult.ok l) :
    l.length = 32 ∧ l.Nodup ∧
      (∀ i ∈ l, i < s.validators.length ∧
        (s.validators.getD i defaultValidator).is_active = true ∧
        (s.validators.getD i defaultValidator).is_slashed = false) := by
  rw [State.pick_epoch_proposers] at h
  by_cases hc : s.get_total_active_validators < 32
  · rw [if_pos hc] at h
    exact PickResult.noConfusion h
  · rw [if_neg hc] at h
    exact pickLoop_ok_spec s.validators stream fuel 0 [] l List.nodup_nil (by simp) h

/-- C8 (witness): a concrete run over 32 all-eligible validators with a
deterministic stream returns `[0, 1, ..., 31]`, which satisfies the
specification. -/
theorem pick_epoch_proposers_ok_spec_witness :
    (List.range 32).length = 32 ∧ (List.range 32).Nodup ∧
      (∀ i ∈ List.range 32,
        i < (State.mk ⟨10, 1024000000000, 1, 1, 0⟩ (List.replicate 32
          ⟨32000000000, 32000000000, true, false, false, false, false,
            false⟩)).validators.length ∧
        ((State.mk ⟨10, 1024000000000, 1, 1, 0⟩ (List.replicate 32
          ⟨32000000000, 32000000000, true, false, false, false, false,
            false⟩)).validators.getD i defaultValidator).is_active = true ∧
        ((State.mk ⟨10, 1024000000000, 1, 1, 0⟩ (List.replicate 32
          ⟨32000000000, 32000000000, true, false, false, false, false,
            false⟩)).validators.getD i defaultValidator).is_slashed = false) :=
  pick_epoch_proposers_ok_spec _ (fun k => k / 2) 40 (List.range 32) (by decide)

/-- C9 (confirmed): the invariant `effective_balance ≤ MAX_EFFECTIVE_BALANCE ∧
EFFECTIVE_BALANCE_INCREMENT ∣ effective_balance` holds for every validator
created by `State::new` and is preserved by `update_previous_epoch_activity`,
`apply_deltas`, and `update_effective_balance`. -/
theorem validator_invariant_preserved :
    (∀ (cfg : Config) (v : Validator), v ∈ (State.new cfg).validators →
      validator_invariant v) ∧
    (∀ (v : Validator) (s : State) (d1 d2 : ℚ) (pis : List ℕ) (idx : ℕ),
      validator_invariant v →
      validator_invariant (v.update_previous_epoch_activity s d1 d2 pis idx)) ∧
    (∀ (v : Validator) (ds : Deltas) (w : Validator), validator_invariant v →
      apply_deltas v ds = some w → validator_invariant w) ∧
    (∀ v : Validator, validator_invariant v →
      validator_invariant v.update_effective_balance) := by
  refine ⟨?_, ?_, ?_, ?_⟩
  · intro cfg v hv
    rw [State.new] at hv
    have hveq := List.eq_of_mem_replicate hv
    subst hveq
    exact ⟨le_rfl, 32, by norm_num [MAX_EFFECTIVE_BALANCE, EFFECTIVE_BALANCE_INCREMENT]⟩
  · intro v s d1 d2 pis idx h
    exact h
  · intro v ds w h heq
    rw [apply_deltas] at heq
    by_cases hc : v.balance + ds.head_ffg_reward < ds.head_ffg_penalty
    · rw [if_pos hc] at heq
      exact Option.noConfusion heq
    · rw [if_neg hc] at heq
      rw [Option.some.injEq] at heq
      subst heq
      exact h
  · intro v h
    simp only [Validator.update_effective_balance]
    by_cases hc : v.balance < v.effective_balance ∨
        v.effective_balance + 3 * (EFFECTIVE_BALANCE_INCREMENT / 2) < v.balance
    · rw [if_pos hc]
      have hsub : EFFECTIVE_BALANCE_INCREMENT ∣
          v.balance - v.balance % EFFECTIVE_BALANCE_INCREMENT := by
        refine ⟨v.balance / EFFECTIVE_BALANCE_INCREMENT, ?_⟩
        have := Nat.div_add_mod v.balance EFFECTIVE_BALANCE_INCREMENT
        omega
      refine ⟨min_le_right _ _, ?_⟩
      rcases le_total (v.balance - v.balance % EFFECTIVE_BALANCE_INCREMENT)
        MAX_EFFECTIVE_BALANCE with hle | hle
      · rw [min_eq_left hle]
        exact hsub
      · rw [min_eq_right hle]
        exact ⟨32, by norm_num [MAX_EFFECTIVE_BALANCE, EFFECTIVE_BALANCE_INCREMENT]⟩
    · rw [if_neg hc]
      exact h

/-- C9 (witness): the invariant at a freshly created validator of
`State::new`, and its preservation through `update_effective_balance` on a
concrete validator whose balance drifted below its effective balance. -/
theorem validator_invariant_preserved_witness :
    validator_invariant ⟨32000000000, 32000000000, true, false, false, false, false,
      false⟩ ∧
    validator_invariant ((⟨23500000000, 24000000000, true, false, false, false, false,
      false⟩ : Validator).update_effective_balance) :=
  ⟨validator_invariant_preserved.1 ⟨1, 32000000000, 1, 1, 0⟩ _ (by
      rw [State.new]
      exact List.mem_replicate.mpr ⟨by norm_num [MAX_EFFECTIVE_BALANCE], rfl⟩),
    validator_invariant_preserved.2.2.2 _
      ⟨by norm_num [MAX_EFFECTIVE_BALANCE],
        24, by norm_num [EFFECTIVE_BALANCE_INCREMENT]⟩⟩

/-- C10 (confirmed): the division in `get_base_reward` is unguarded: at
`sqrt_total_active_balance = 0` the call is a runtime failure (`none`), and
for every positive divisor the function succeeds. -/
theorem get_base_reward_division_guard :
    (∀ v : Validator, v.get_base_reward 0 = none) ∧
    (∀ (v : Validator) (s : ℕ), 0 < s → ∃ r, v.get_base_reward s = some r) := by
  constructor
  · intro v
    rw [Validator.get_base_reward, if_pos rfl]
  · intro v s hs
    exact ⟨_, by rw [Validator.get_base_reward, if_neg (by omega)]⟩

/-- C10 (witness): the failure at divisor `0` and the success at divisor `7`
for a concrete validator. -/
theorem get_base_reward_division_guard_witness :
    Validator.get_base_reward ⟨5, 6, true, false, false, false, false, false⟩ 0 = none ∧
    ∃ r, Validator.get_base_reward ⟨5, 6, true, false, false, false, false, false⟩ 7 =
      some r :=
  ⟨get_base_reward_division_guard.1 _, get_base_reward_division_guard.2 _ 7 (by norm_num)⟩
